import Mathlib

/-!
Verification of the retrieval subsystem of `backend/rag_system.py`
(`RAGSystem`): a shallow embedding of the data model (documents, metadata,
vector index), the chunker, the CSV record normalizer, the filtered
retrieval loop, and persistence loading, together with theorems settling
the specified claims.

Conventions of the embedding:
- Python strings are modelled as `List Char` (wrapped into `String` at the
  boundaries); Python slicing, `rfind`, and `strip` are modelled by
  `pySlice`, `rfindChar`, and `pyStripL` with Python's semantics
  (negative indices count from the end, `strip` removes surrounding
  whitespace).
- Python numbers stored in records are modelled as rationals; the textual
  rendering of a float (`str(x)`) is modelled by `ratStr`, which is only
  ever compared against the literal "nan" on the paths under study, and
  `"%.2f"`-style formatting is modelled by `format2f` (exact for values
  with at most two decimal places, which covers every value the claims
  evaluate).
- The `while` loop of `_chunk_text` has no termination guarantee, so it is
  embedded with explicit fuel: a `none` result means the loop did not
  finish within the given fuel, and `(∀ fuel, … = none)` means it never
  finishes.
-/

namespace RAG

/-- A Python value stored in a record / metadata dictionary:
a string, a (rational-modelled) number, a float NaN, or Python `None`. -/
inductive Value where
  | str (s : String)
  | num (q : ℚ)
  | nan
  | null
deriving DecidableEq, Repr

/-- A record (one parsed dataset row) and a metadata dictionary are both
Python dicts: modelled as association lists with unique keys, preserving
insertion order (as Python dicts do). -/
abbrev Rec := List (String × Value)

/-- `dict.get(key)`: the value under `key`, or `none` when absent. -/
def metaGet (m : Rec) (key : String) : Option Value :=
  match m with
  | [] => none
  | (k, v) :: rest => if k = key then some v else metaGet rest key

/-- `key in dict`. -/
def hasKey (m : Rec) (key : String) : Bool :=
  (metaGet m key).isSome

/-- `dict[key] = value`: replace in place when the key exists (Python keeps
the original insertion position), append otherwise. -/
def metaSet (m : Rec) (key : String) (v : Value) : Rec :=
  match m with
  | [] => [(key, v)]
  | (k, w) :: rest => if k = key then (k, v) :: rest else (k, w) :: metaSet rest key v

/-- Truthiness of an `Optional[str]` argument (`if s:`): present and
non-empty. -/
def truthyS : Option String → Bool
  | none => false
  | some s => decide (s ≠ "")

/-- Python truthiness of a record value (`if v:`). NaN floats are truthy. -/
def truthyV : Value → Bool
  | .str s => decide (s ≠ "")
  | .num q => decide (q ≠ 0)
  | .nan => true
  | .null => false

/-- Decimal rendering of a rational, used to model `str(x)` for numeric
values. The embedding only ever compares this against the literal `"nan"`
(which it never equals) and never inspects its digits, so the exact
digit-for-digit float `repr` of Python is not modelled. -/
def ratStr (q : ℚ) : String :=
  if q.den = 1 then toString q.num else toString q.num ++ "/" ++ toString q.den

/-- `str(v)` for a record value. -/
def pyStr : Value → String
  | .str s => s
  | .num q => ratStr q
  | .nan => "nan"
  | .null => "None"

/-- `"%.2f" % q` (the `{x:.2f}` format): round `q * 100` to the nearest
integer (computed on the integer numerator/denominator pair as
`⌊(100·num)/den + 1/2⌋ = (200·num + den).fdiv (2·den)`) and print with
exactly two fractional digits. Exact for inputs that already have at most
two decimal places (Python rounds half-to-even at the exact boundary;
this rounds half-up, and no claim evaluates a boundary value). -/
def format2f (q : ℚ) : String :=
  let scaled : ℤ := Int.fdiv (200 * q.num + q.den) (2 * q.den)
  let sign := if scaled < 0 then "-" else ""
  let m := scaled.natAbs
  let frac := m % 100
  sign ++ toString (m / 100) ++ "." ++ (if frac < 10 then "0" ++ toString frac else toString frac)

/-! ## Python string primitives on `List Char` -/

/-- Whitespace predicate used by `str.strip()`. -/
def isWs (c : Char) : Bool := c.isWhitespace

/-- `s.strip()`: drop leading and trailing whitespace. -/
def pyStripL (l : List Char) : List Char :=
  ((l.dropWhile isWs).reverse.dropWhile isWs).reverse

/-- `s.strip()` on `String`. -/
def pyStripS (s : String) : String :=
  (pyStripL s.toList).asString

/-- Python slice `s[a:b]` (step 1): negative indices count from the end,
then both bounds are clamped to `[0, len]`, and an empty slice results when
the effective start is not below the effective end. -/
def pySlice (l : List Char) (a b : Int) : List Char :=
  let n : Int := l.length
  let a' := (if a < 0 then max 0 (n + a) else min a n).toNat
  let b' := (if b < 0 then max 0 (n + b) else min b n).toNat
  (l.drop a').take (b' - a')

/-- Index of the first element satisfying `p`, if any. -/
def firstIdx (p : Char → Bool) : List Char → Option Nat
  | [] => none
  | c :: rest => if p c then some 0 else (firstIdx p rest).map (· + 1)

/-- `s.rfind(c)`: highest index of `c` in `l`, or `-1` when absent
(searched as the first hit in the reversed string). -/
def rfindChar (l : List Char) (c : Char) : Int :=
  match firstIdx (fun x => x == c) l.reverse with
  | some j => (l.length : Int) - 1 - j
  | none => -1

/-! ## The chunker (`RAGSystem._chunk_text`) -/

/-- One iteration of the `_chunk_text` loop body (before stripping):
given the current `start`, produce the raw chunk and the adjusted `end`.
Mirrors lines 426–438 of `rag_system.py`: take `text[start:start+size]`;
if the window ends before the end of the text, find the last `'.'` or
`'\n'` in it, and when that break point lies strictly past half the chunk
size (`break_point > chunk_size * 0.5`, i.e. `2 * bp > size` over the
integers), cut the chunk there and pull `end` back to `start + bp + 1`. -/
def chunkOnce (text : List Char) (size : Int) (start : Int) : List Char × Int :=
  let e := start + size
  let chunk := pySlice text start e
  if e < (text.length : Int) then
    let bp := max (rfindChar chunk '.') (rfindChar chunk '\n')
    if 2 * bp > size then (pySlice chunk 0 (bp + 1), start + bp + 1)
    else (chunk, e)
  else (chunk, e)

/-- The `while start < len(text)` loop of `_chunk_text`, with explicit
fuel (the source has no termination guarantee): each emitted chunk is the
stripped window from `chunkOnce`, and the next start is `end - overlap`.
`none` means the fuel ran out before the loop condition failed. -/
def chunkTextAux (text : List Char) (size overlap : Int) : Nat → Int → Option (List (List Char))
  | 0, _ => none
  | fuel + 1, start =>
    if start < (text.length : Int) then
      match chunkTextAux text size overlap fuel ((chunkOnce text size start).2 - overlap) with
      | some rest => some (pyStripL (chunkOnce text size start).1 :: rest)
      | none => none
    else some []

/-- `RAGSystem._chunk_text(text, chunk_size, chunk_overlap)` with fuel. -/
def chunkText (fuel : Nat) (text : String) (size overlap : Int) : Option (List String) :=
  (chunkTextAux text.toList size overlap fuel 0).map (fun l => l.map List.asString)

/-! ## The record normalizer (`RAGSystem._create_text_from_csv_record`) -/

/-- The lesson-id cleaning of lines 216 / 227:
`.lower().replace(' ', '_').replace(',', '').replace("'", '')`. -/
def cleanLesson (s : String) : String :=
  (((s.toList.map Char.toLower).map (fun c => if c = ' ' then '_' else c)).filter
    (fun c => !(c == ',') && !(c == Char.ofNat 39))).asString

/-- Python `str.split()`: split on whitespace runs, dropping empty pieces.
`acc` is the current word accumulated in reverse. -/
def splitWsAux (acc : List Char) : List Char → List (List Char)
  | [] => if acc.isEmpty then [] else [acc.reverse]
  | c :: rest =>
    if isWs c then
      if acc.isEmpty then splitWsAux [] rest else acc.reverse :: splitWsAux [] rest
    else splitWsAux (c :: acc) rest

def splitWs (l : List Char) : List (List Char) := splitWsAux [] l

/-- The headline slug of lines 240–241: first three lowercased words joined
by `_`, commas/apostrophes/double-quotes removed, `-` replaced by `_`,
truncated to 50 characters. -/
def headlineSlug (headline : String) : String :=
  let words := (splitWs (headline.toList.map Char.toLower)).take 3
  let joined := List.intercalate ['_'] words
  (((joined.filter (fun c => !(c == ',') && !(c == Char.ofNat 39) && !(c == Char.ofNat 34))).map
    (fun c => if c = '-' then '_' else c)).take 50).asString

/-- `{v:.2f}` applied to a record value. Python raises a `TypeError` for
non-numeric values here; the guards on the call sites only pass `None`/NaN
checks, so on the embedded happy path only `num` is ever formatted. Other
values are rendered via `pyStr` (never reached by the claims). -/
def fmtNumV : Value → String
  | .num q => format2f q
  | v => pyStr v

/-- One `"<label> <x:.2f>°C."` sentence of `_create_text_from_csv_record`
(lines 387–409): emitted only when the key is present and its value is
neither `None` nor NaN (`str(v) != 'nan'`). -/
def tempPart (rec : Rec) (key : String) (label : String) : List String :=
  match metaGet rec key with
  | some v => if v ≠ Value.null ∧ pyStr v ≠ "nan" then [label ++ fmtNumV v ++ "°C."] else []
  | none => []

/-- `RAGSystem._create_text_from_csv_record(record, text_column)`
(lines 348–418): reuse a pre-aggregated `text` field; else the
headline/content path; else build per-field climate sentences; a present
and truthy `text_column` value (checked last) overrides the built parts. -/
def createTextFromCsvRecord (rec : Rec) (tc : String) : String :=
  if hasKey rec "text" then pyStr ((metaGet rec "text").getD Value.null)
  else if hasKey rec "Headline" || hasKey rec "Content" then
    let headline := (metaGet rec "Headline").getD (Value.str "")
    let content := (metaGet rec "Content").getD (Value.str "")
    let sentiment := (metaGet rec "Sentiment").getD (Value.str "")
    let justification := (metaGet rec "Justification").getD (Value.str "")
    let parts :=
      (if truthyV headline then ["Climate news headline: " ++ pyStr headline] else [])
      ++ (if truthyV content then [pyStr content]
          else if truthyV headline then [pyStr headline] else [])
      ++ (if truthyV sentiment then ["Sentiment analysis: " ++ pyStr sentiment] else [])
      ++ (if truthyV justification then ["Context: " ++ pyStr justification] else [])
    String.intercalate " " parts
  else
    let parts :=
      (if hasKey rec "Country" then
        ["Climate data for " ++ pyStr ((metaGet rec "Country").getD Value.null) ++ ":"] else [])
      ++ tempPart rec "AverageTemperature" "Average temperature: "
      ++ (if hasKey rec "dt" && truthyV ((metaGet rec "dt").getD Value.null) then
        ["Date: " ++ pyStr ((metaGet rec "dt").getD Value.null) ++ "."] else [])
      ++ tempPart rec "AverageTemperatureUncertainty" "Temperature uncertainty: "
      ++ tempPart rec "LandAverageTemperature" "Global land average temperature: "
      ++ tempPart rec "LandAndOceanAverageTemperature" "Global land and ocean average temperature: "
    if tc ≠ "" ∧ hasKey rec tc = true ∧ truthyV ((metaGet rec tc).getD Value.null) = true
    then pyStr ((metaGet rec tc).getD Value.null)
    else String.intercalate " " parts

/-! ## The ingestion loop of `RAGSystem.load_from_dataset` (lines 174–260)

The dataset-file parsing of lines 136–171 (JSON decoding, pandas CSV
reading, and the per-country aggregation pre-pass) is the upstream data
loader; the embedding takes the resulting record list as input, as the
per-record loop does. -/

/-- The per-record text choice (lines 179–194): on the CSV path a present,
non-`None`, non-NaN, non-blank `text_column` value is used stripped,
otherwise text is synthesized via `_create_text_from_csv_record`; on the
JSON/JSONL path the raw `record.get(text_column, "")` value is used. -/
def recordText (isCsv : Bool) (tc : String) (rec : Rec) : String :=
  if isCsv then
    match metaGet rec tc with
    | some tv =>
      if tv ≠ Value.null ∧ pyStr tv ≠ "nan" ∧ pyStripS (pyStr tv) ≠ ""
      then pyStripS (pyStr tv)
      else createTextFromCsvRecord rec tc
    | none => createTextFromCsvRecord rec tc
  else pyStr ((metaGet rec tc).getD (Value.str ""))

/-- The skip test of line 196:
`if not text or text.strip() == "" or text == "nan": continue`. -/
def skipText (t : String) : Bool :=
  t == "" || pyStripS t == "" || t == "nan"

/-- The metadata dictionary built per chunk (lines 205–255): a
`dataset_name` (explicit or `"default"`), the `lesson_id` derivation chain
(explicit column → `Country` → `dt` → `Headline`), `person_id` (explicit
column value or `"student_1"`), then every record field other than the
text column copied through (overwriting on key collision, as dict
assignment does). -/
def recordMeta (tc : String) (lic pic dn : Option String) (rec : Rec) : Rec :=
  let m : Rec := [("dataset_name", Value.str (if truthyS dn then dn.getD "" else "default"))]
  let m :=
    if truthyS lic && hasKey rec (lic.getD "") then
      let lessonValue := pyStr ((metaGet rec (lic.getD "")).getD Value.null)
      let clean := cleanLesson lessonValue
      let lid := if truthyS dn && !(dn.getD "" == "default")
        then dn.getD "" ++ "_" ++ clean else clean
      metaSet (metaSet m "lesson_id" (Value.str lid)) (lic.getD "") (Value.str lessonValue)
    else if hasKey rec "Country" then
      let country := pyStr ((metaGet rec "Country").getD Value.null)
      let clean := cleanLesson country
      let lid := if truthyS dn && !(dn.getD "" == "default")
        then dn.getD "" ++ "_" ++ clean else "climate_" ++ clean
      metaSet (metaSet m "lesson_id" (Value.str lid)) "country" (Value.str country)
    else if hasKey rec "dt" then
      metaSet m "lesson_id"
        (Value.str ("global_temp_" ++ pyStr ((metaGet rec "dt").getD (Value.str "unknown"))))
    else if hasKey rec "Headline" then
      let hclean := headlineSlug (pyStr ((metaGet rec "Headline").getD (Value.str "")))
      let lid := if truthyS dn && !(dn.getD "" == "default")
        then dn.getD "" ++ "_" ++ hclean else "headline_" ++ hclean
      metaSet m "lesson_id" (Value.str lid)
    else m
  let m :=
    if truthyS pic && hasKey rec (pic.getD "") then
      metaSet m "person_id" ((metaGet rec (pic.getD "")).getD Value.null)
    else metaSet m "person_id" (Value.str "student_1")
  rec.foldl (fun acc kv => if kv.1 ≠ tc then metaSet acc kv.1 kv.2 else acc) m

/-- The record loop of `load_from_dataset` (lines 178–257): per record,
choose the text, skip when the skip test fires, chunk, and append one
document and one (identical) metadata dictionary per chunk, in lock-step.
Returns `none` when the chunker does not terminate within `fuel`. -/
def processRecords (isCsv : Bool) (tc : String) (lic pic : Option String) (size overlap : Int)
    (dn : Option String) (fuel : Nat) : List Rec → Option (List String × List Rec)
  | [] => some ([], [])
  | rec :: rest =>
    let t := recordText isCsv tc rec
    if skipText t then processRecords isCsv tc lic pic size overlap dn fuel rest
    else
      match chunkText fuel t size overlap with
      | none => none
      | some chunks =>
        match processRecords isCsv tc lic pic size overlap dn fuel rest with
        | none => none
        | some (ds, ms) =>
          some (chunks ++ ds, chunks.map (fun _ => recordMeta tc lic pic dn rec) ++ ms)

/-! ## The store state and its mutating operations -/

/-- The mutable state of a `RAGSystem`: the parallel `documents` and
`metadata` arrays, and the FAISS index. `IndexFlatL2` stores one vector
per added embedding in insertion order and embedding is a deterministic
function of the text, so the index content is modelled as the list of
texts whose embeddings were added, in order (`ntotal` is its length);
`indexDim` is the index dimension `index.d`, `dimension` the configured
embedder dimension. -/
structure RAGState where
  documents : List String
  metadata : List Rec
  index : List String
  indexDim : Nat
  dimension : Nat
  embeddingModelName : String
deriving DecidableEq, Repr

/-- The state after `RAGSystem.__init__` with the default model
(dimension 384, empty index and arrays). -/
def initialState : RAGState :=
  ⟨[], [], [], 384, 384, "sentence-transformers/all-MiniLM-L6-v2"⟩

/-- `RAGSystem.add_documents(documents, metadata)` (lines 72–110): default
metadata is one empty dict per document; mismatched lengths raise a
`ValueError` before any mutation; otherwise embed and add all vectors to
the index and extend both parallel arrays. -/
def addDocuments (st : RAGState) (docs : List String) (metadata : Option (List Rec)) :
    Except String RAGState :=
  let metas := metadata.getD (List.replicate docs.length ([] : Rec))
  if docs.length ≠ metas.length then
    Except.error "Documents and metadata must have the same length"
  else
    Except.ok { st with
      documents := st.documents ++ docs
      metadata := st.metadata ++ metas
      index := st.index ++ docs }

/-- An ingestion call: `add_documents` or `load_from_dataset` (the latter
given its parsed record list, text/lesson/person column names, chunking
parameters, dataset name, and chunker fuel). -/
inductive Op where
  | addDocs (docs : List String) (metadata : Option (List Rec))
  | loadDataset (isCsv : Bool) (tc : String) (lic pic : Option String) (size overlap : Int)
      (dn : Option String) (fuel : Nat) (records : List Rec)

/-- Apply one ingestion call. A raised `ValueError` (or a non-terminating
chunker) propagates before any mutation, leaving the state unchanged. -/
def applyOp (st : RAGState) : Op → RAGState
  | .addDocs docs metadata =>
    match addDocuments st docs metadata with
    | .ok st' => st'
    | .error _ => st
  | .loadDataset isCsv tc lic pic size overlap dn fuel records =>
    match processRecords isCsv tc lic pic size overlap dn fuel records with
    | none => st
    | some (docs, metas) =>
      match addDocuments st docs (some metas) with
      | .ok st' => st'
      | .error _ => st

/-- A sequence of ingestion calls. -/
def runOps (st : RAGState) (ops : List Op) : RAGState := ops.foldl applyOp st

/-! ## Filtered retrieval (`RAGSystem.retrieve`, lines 445–504) -/

/-- The candidate count of lines 476–477:
`search_k = k * 3 if (dataset_name or lesson_id or person_id) else k`
then `search_k = min(search_k, len(self.documents))`. -/
def searchK (k n : Nat) (dn li pi : Option String) : Nat :=
  min (if truthyS dn || truthyS li || truthyS pi then k * 3 else k) n

/-- One string filter of lines 488–493: active only when the argument is
truthy, and then requiring `meta.get(key) == value` (a missing key never
matches). -/
def strFilterPass (m : Rec) (key : String) (f : Option String) : Bool :=
  match f with
  | none => true
  | some s => if s = "" then true else decide (metaGet m key = some (Value.str s))

/-- The `filter_metadata` check of lines 494–496: vacuous for an absent or
empty dict, otherwise every pair must match exactly. -/
def fmPass (m : Rec) (fm : Option (List (String × Value))) : Bool :=
  match fm with
  | none => true
  | some l => l.all (fun kv => decide (metaGet m kv.1 = some kv.2))

/-- All four filters of the candidate loop. -/
def filterPass (m : Rec) (dn li pi : Option String) (fm : Option (List (String × Value))) : Bool :=
  strFilterPass m "dataset_name" dn && strFilterPass m "lesson_id" li &&
    strFilterPass m "person_id" pi && fmPass m fm

/-- The candidate loop of lines 481–502: walk the `(index, distance)`
candidates in order, skip the ones failing a filter, keep the rest, and
break once `len(results) >= k` right after an append. -/
def retrieveLoop (docs : List String) (metas : List Rec) (dn li pi : Option String)
    (fm : Option (List (String × Value))) (k : Nat) :
    Nat → List (Nat × ℚ) → List (String × Rec × ℚ)
  | _, [] => []
  | count, (idx, dist) :: rest =>
    if filterPass (metas.getD idx []) dn li pi fm then
      (docs.getD idx "", metas.getD idx [], dist) ::
        (if k ≤ count + 1 then [] else retrieveLoop docs metas dn li pi fm k (count + 1) rest)
    else retrieveLoop docs metas dn li pi fm k count rest

/-- `RAGSystem.retrieve(query, k, lesson_id, person_id, filter_metadata,
dataset_name)`: empty store short-circuits to `[]`; otherwise the FAISS
search (an external call, abstracted as `searchFn`, which maps a requested
candidate count to the `(index, squared-L2-distance)` pairs it returns) is
asked for `searchK` candidates and the candidate loop filters them. -/
def retrieve (st : RAGState) (searchFn : Nat → List (Nat × ℚ)) (k : Nat)
    (lessonId personId : Option String) (fm : Option (List (String × Value)))
    (datasetName : Option String) : List (String × Rec × ℚ) :=
  if st.documents.length = 0 then []
  else
    retrieveLoop st.documents st.metadata datasetName lessonId personId fm k 0
      (searchFn (searchK k st.documents.length datasetName lessonId personId))

/-! ## The per-country trend narrative (`_process_climate_csv`, lines 304–317) -/

/-- `pandas.Series.mean` on the temperature column. -/
def listMean (l : List ℚ) : ℚ := l.sum / l.length

/-- The trend temperature change of lines 305–311: with
`split_point = len(rows) // 3`, the mean of the last `split_point`
time-ordered temperatures minus the mean of the first `split_point`. -/
def trendChange (temps : List ℚ) : ℚ :=
  let sp := temps.length / 3
  listMean (temps.drop (temps.length - sp)) - listMean (temps.take sp)

/-- The phrasing branch of lines 313–316: `abs(temp_change) < 0.5` gives
the stable narrative, otherwise `"increased" if temp_change > 0 else
"decreased"`. -/
def trendPhrase (tempChange : ℚ) : String :=
  if |tempChange| < 1/2 then "remained relatively stable"
  else if 0 < tempChange then "increased" else "decreased"

/-! ## Persistence loading (`RAGSystem.load_index`, lines 570–590) -/

/-- The serialized FAISS index artifact (`<path>.index`): its dimension
and its stored vectors (modelled, as in `RAGState`, by the texts they
embed). -/
structure IndexArtifact where
  d : Nat
  storedVectors : List String
deriving DecidableEq, Repr

/-- The companion data artifact (`<path>.data`): documents, metadata,
saved dimension and embedding-model name. -/
structure DataArtifact where
  documents : List String
  metadata : List Rec
  dimension : Nat
  embeddingModel : String
deriving DecidableEq, Repr

/-- `RAGSystem.load_index(index_path)`: read the index, unpickle the data
file, and assign every field. The source performs no cross-artifact
consistency check of any kind (no length comparison, no dimension
comparison), so the embedding is a total function producing a state from
whatever the two artifacts contain. -/
def loadIndex (idx : IndexArtifact) (data : DataArtifact) : RAGState :=
  { documents := data.documents
    metadata := data.metadata
    index := idx.storedVectors
    indexDim := idx.d
    dimension := data.dimension
    embeddingModelName := data.embeddingModel }

/-! ## Spec-worded definitions

These follow the words of the specification sentences under test (not the
source), so that refinement and counterexample statements can compare the
two. -/

/-- The candidate-count rule exactly as the claim states it: `3*k`
candidates whenever ANY filter is supplied — `dataset_name`, `lesson_id`,
`person_id`, or the arbitrary exact-match `filter_metadata` — else `k`,
never exceeding the number of stored documents. -/
def searchKSpec (k n : Nat) (dn li pi : Option String)
    (fm : Option (List (String × Value))) : Nat :=
  let fmActive := match fm with | none => false | some l => !l.isEmpty
  min (if truthyS dn || truthyS li || truthyS pi || fmActive then k * 3 else k) n

/-- Spec wording: searching backward from the boundary within the window,
the position of the last sentence terminator `'.'` or newline, if any. -/
def lastBreak (w : List Char) : Option Nat :=
  match firstIdx (fun c => c == '.' || c == '\n') w.reverse with
  | some j => some (w.length - 1 - j)
  | none => none

/-- The per-window cut exactly as the claim states it: when the last break
character occurs AT or after the chunk's midpoint, cut just after it,
otherwise cut at the `chunk_size` boundary; strip the result. -/
def specCutAtOrAfter (text : List Char) (size start : Int) : List Char :=
  let w := pySlice text start (start + size)
  match lastBreak w with
  | some i => if size ≤ 2 * (i : Int) then pyStripL (w.take (i + 1)) else pyStripL w
  | none => pyStripL w

/-- The amended per-window cut: the source cuts early only when the break
point lies STRICTLY after the midpoint (`break_point > chunk_size * 0.5`). -/
def specCutStrict (text : List Char) (size start : Int) : List Char :=
  let w := pySlice text start (start + size)
  match lastBreak w with
  | some i => if 2 * (i : Int) > size then pyStripL (w.take (i + 1)) else pyStripL w
  | none => pyStripL w

/-! ## Concrete fixtures used by witnesses and counterexamples -/

/-- A three-document store where only the third document's metadata
carries the pair `("tag", "x")`. -/
def stThree : RAGState :=
  ⟨["a", "b", "c"],
   [[("x", Value.str "0")], [("x", Value.str "1")], [("tag", Value.str "x")]],
   ["a", "b", "c"], 384, 384, "m"⟩

/-- A deterministic FAISS stand-in for `stThree`: candidate `i` at
distance `i + 1`, truncated to the requested count. -/
def sfThree : Nat → List (Nat × ℚ) :=
  fun m => ([(0, (1 : ℚ)), (1, 2), (2, 3)]).take m

/-- `{"Country": "France", "AverageTemperature": 12.5}`. -/
def franceRec : Rec :=
  [("Country", Value.str "France"), ("AverageTemperature", Value.num (mkRat 25 2))]

/-- `{"Country": "Germany", "AverageTemperature": 9.0}`. -/
def germanyRec : Rec :=
  [("Country", Value.str "Germany"), ("AverageTemperature", Value.num (mkRat 9 1))]

/-- The store after ingesting the France and Germany records through the
CSV record loop with the default parameters (`text_column="text"`,
`chunk_size=500`, `chunk_overlap=50`, no explicit columns, no dataset
name). -/
def franceGermanyState : RAGState :=
  applyOp initialState (Op.loadDataset true "text" none none 500 50 none 5 [franceRec, germanyRec])

/-- A 21-row temperature series whose first third averages 1.0°C and whose
last third averages 1.5°C: the trend change is exactly 0.5°C. -/
def temps21 : List ℚ := List.replicate 7 1 ++ List.replicate 7 1 ++ List.replicate 7 (3/2)

/-- A record whose text contains a ten-space run: the window `[3:7]` of
its text is pure whitespace, so the corresponding chunk strips to `""`. -/
def wsRecord : Rec := [("text", Value.str "ab.          z")]

/-! ## Chunker window lemmas (for C6) -/

/-- The first index at which either of two searches hits: the minimum of
the two first-hit indices. -/
def combineIdx : Option Nat → Option Nat → Option Nat
  | none, o => o
  | some j, none => some j
  | some j1, some j2 => some (min j1 j2)

/-- `combineIdx` commutes with shifting both indices by one. -/
theorem combineIdx_map_succ (o1 o2 : Option Nat) :
    combineIdx (o1.map (· + 1)) (o2.map (· + 1)) = (combineIdx o1 o2).map (· + 1) := by
  cases o1 <;> cases o2 <;> (simp [combineIdx]; try omega)

/-- The first index hitting the union of two predicates is the earlier of
the first index
hitting `p` and the first index hitting `q`. -/
theorem firstIdx_or (p q : Char → Bool) :
    ∀ r : List Char, firstIdx (fun c => p c || q c) r = combineIdx (firstIdx p r) (firstIdx q r) := by
  intro r
  induction r with
  | nil => rfl
  | cons a t ih =>
    by_cases hp : p a
    · by_cases hq : q a
      · simp [firstIdx, hp, hq, combineIdx]
      · simp only [firstIdx, hp, hq, Bool.true_or, if_true, if_false]
        cases h : firstIdx q t <;> simp [combineIdx]
    · by_cases hq : q a
      · simp only [firstIdx, hp, hq, Bool.false_or, if_true, if_false]
        cases h : firstIdx p t <;> simp [combineIdx]
      · simp [firstIdx, hp, hq, ih, combineIdx_map_succ]

/-- A found first index is within bounds. -/
theorem firstIdx_lt_length (p : Char → Bool) :
    ∀ r : List Char, ∀ j, firstIdx p r = some j → j < r.length := by
  intro r
  induction r with
  | nil => intro j h; exact absurd h (by simp [firstIdx])
  | cons a t ih =>
    intro j h
    rw [firstIdx] at h
    split at h
    · rw [Option.some.injEq] at h
      simp only [List.length_cons]
      omega
    · cases h2 : firstIdx p t with
      | none => rw [h2] at h; exact absurd h (by simp)
      | some j2 =>
        rw [h2] at h
        simp at h
        have := ih j2 h2
        simp only [List.length_cons]
        omega
/-- Specialization of `firstIdx_or` to the sentence-break characters. -/
theorem firstIdx_break (r : List Char) :
    firstIdx (fun c => c == '.' || c == '\n') r =
      combineIdx (firstIdx (fun x => x == '.') r) (firstIdx (fun x => x == '\n') r) :=
  firstIdx_or (fun x => x == '.') (fun x => x == '\n') r

/-- The source's break point, `max(chunk.rfind('.'), chunk.rfind('\\n'))`,
equals the spec's backward search for the last `'.'`-or-newline (with `-1`
encoding absence). -/
theorem rfind_max_lastBreak (w : List Char) :
    max (rfindChar w '.') (rfindChar w '\n') =
      (match lastBreak w with
       | some i => (i : Int)
       | none => -1) := by
  unfold rfindChar lastBreak
  rw [firstIdx_break]
  cases h1 : firstIdx (fun x => x == '.') w.reverse with
  | none =>
    cases h2 : firstIdx (fun x => x == '\n') w.reverse with
    | none => simp [combineIdx]
    | some j2 =>
      have hb := firstIdx_lt_length _ _ _ h2
      rw [List.length_reverse] at hb
      simp only [combineIdx]
      rw [max_eq_right (by omega : (-1 : Int) ≤ (w.length : Int) - 1 - (j2 : Int))]
      rw [Nat.cast_sub (by omega), Nat.cast_sub (by omega), Nat.cast_one]
  | some j1 =>
    have hb1 := firstIdx_lt_length _ _ _ h1
    rw [List.length_reverse] at hb1
    cases h2 : firstIdx (fun x => x == '\n') w.reverse with
    | none =>
      simp only [combineIdx]
      rw [max_eq_left (by omega : (-1 : Int) ≤ (w.length : Int) - 1 - (j1 : Int))]
      rw [Nat.cast_sub (by omega), Nat.cast_sub (by omega), Nat.cast_one]
    | some j2 =>
      have hb2 := firstIdx_lt_length _ _ _ h2
      rw [List.length_reverse] at hb2
      simp only [combineIdx]
      rcases le_total j1 j2 with hj | hj
      · rw [min_eq_left hj, max_eq_left (by omega)]
        rw [Nat.cast_sub (by omega), Nat.cast_sub (by omega), Nat.cast_one]
      · rw [min_eq_right hj, max_eq_right (by omega)]
        rw [Nat.cast_sub (by omega), Nat.cast_sub (by omega), Nat.cast_one]
/-- A Python slice `[0:m]` with `m ≥ 0` is a `take`. -/
theorem pySlice_zero (l : List Char) (m : Int) (hm : 0 ≤ m) :
    pySlice l 0 m = l.take m.toNat := by
  simp only [pySlice]
  rw [if_neg (by omega : ¬((0 : Int) < 0)), if_neg (by omega : ¬(m < 0))]
  rw [min_eq_left (by omega : (0 : Int) ≤ (l.length : Int))]
  simp only [Int.toNat_zero, List.drop_zero, Nat.sub_zero]
  rcases le_total m (l.length : Int) with h | h
  · rw [min_eq_left h]
  · rw [min_eq_right h, Int.toNat_natCast, List.take_length]
    exact (List.take_of_length_le (by omega)).symm

/-- `dropWhile` is idempotent. -/
theorem dropWhile_idem (p : Char → Bool) (l : List Char) :
    (l.dropWhile p).dropWhile p = l.dropWhile p := by
  induction l with
  | nil => rfl
  | cons a t ih =>
    by_cases h : p a
    · rw [List.dropWhile_cons_of_pos h]
      exact ih
    · rw [List.dropWhile_cons_of_neg h, List.dropWhile_cons_of_neg h]

/-- `dropWhile` over an append: it passes into the second list exactly
when it consumes the whole first list. -/
theorem dropWhile_append_cases (p : Char → Bool) (l1 l2 : List Char) :
    List.dropWhile p (l1 ++ l2) =
      if (List.dropWhile p l1).isEmpty then List.dropWhile p l2
      else List.dropWhile p l1 ++ l2 := by
  induction l1 with
  | nil => simp
  | cons a t ih =>
    by_cases h : p a
    · rw [List.cons_append, List.dropWhile_cons_of_pos h, List.dropWhile_cons_of_pos h, ih]
    · rw [List.cons_append, List.dropWhile_cons_of_neg h, List.dropWhile_cons_of_neg h]
      simp

/-- `dropWhile` never lengthens a list. -/
theorem dropWhile_length_le (p : Char → Bool) (l : List Char) :
    (l.dropWhile p).length ≤ l.length := by
  induction l with
  | nil => simp
  | cons a t ih =>
    by_cases h : p a
    · rw [List.dropWhile_cons_of_pos h]
      simp only [List.length_cons]
      omega
    · rw [List.dropWhile_cons_of_neg h]

/-- A stripped string has no trailing whitespace. -/
theorem pyStripL_trailing (x : List Char) :
    (pyStripL x).reverse.dropWhile isWs = (pyStripL x).reverse := by
  unfold pyStripL
  rw [List.reverse_reverse]
  exact dropWhile_idem _ _

/-- A stripped string has no leading whitespace. -/
theorem pyStripL_leading (x : List Char) :
    (pyStripL x).dropWhile isWs = pyStripL x := by
  unfold pyStripL
  cases hm : x.dropWhile isWs with
  | nil => simp
  | cons a t =>
    have ha : ¬(isWs a = true) := by
      intro hcon
      have hidem := dropWhile_idem isWs x
      rw [hm, List.dropWhile_cons_of_pos hcon] at hidem
      have hlen := congrArg List.length hidem
      have hle : (List.dropWhile isWs t).length ≤ t.length := dropWhile_length_le _ _
      simp only [List.length_cons] at hlen
      omega
    rw [List.reverse_cons, dropWhile_append_cases]
    by_cases he : (List.dropWhile isWs t.reverse).isEmpty
    · rw [if_pos he]
      rw [List.dropWhile_cons_of_neg ha, List.reverse_singleton,
        List.dropWhile_cons_of_neg ha]
    · rw [if_neg he]
      rw [List.reverse_append, List.reverse_cons, List.reverse_nil, List.nil_append,
        List.singleton_append]
      rw [List.dropWhile_cons_of_neg ha]
/-- The refinement at the heart of the amended C6: for every window that
ends before the end of the text (and positive chunk size), the stripped
chunk the source emits equals the spec-worded cut with the
strictly-after-midpoint rule. -/
theorem chunkOnce_matches_specCutStrict (text : List Char) (size start : Int)
    (hsize : 0 < size) (hend : start + size < (text.length : Int)) :
    pyStripL (chunkOnce text size start).1 = specCutStrict text size start := by
  simp only [chunkOnce]
  rw [if_pos hend, apply_ite Prod.fst, apply_ite pyStripL]
  cases hlb : lastBreak (pySlice text start (start + size)) with
  | none =>
    have hmax : max (rfindChar (pySlice text start (start + size)) '.')
        (rfindChar (pySlice text start (start + size)) (Char.ofNat 10)) = (-1 : Int) := by
      rw [rfind_max_lastBreak, hlb]
    have hspec : specCutStrict text size start = pyStripL (pySlice text start (start + size)) := by
      simp only [specCutStrict, hlb]
    rw [hspec, hmax, if_neg (by omega : ¬(2 * (-1 : Int) > size))]
  | some i =>
    have hmax : max (rfindChar (pySlice text start (start + size)) '.')
        (rfindChar (pySlice text start (start + size)) (Char.ofNat 10)) = ((i : Nat) : Int) := by
      rw [rfind_max_lastBreak, hlb]
    have hspec : specCutStrict text size start =
        (if 2 * (i : Int) > size
         then pyStripL ((pySlice text start (start + size)).take (i + 1))
         else pyStripL (pySlice text start (start + size))) := by
      simp only [specCutStrict, hlb]
    rw [hspec, hmax]
    by_cases hcut : 2 * (i : Int) > size
    · rw [if_pos hcut, if_pos hcut]
      rw [pySlice_zero _ _ (by omega : (0 : Int) ≤ (i : Int) + 1)]
      rw [show ((i : Int) + 1).toNat = i + 1 from by omega]
    · rw [if_neg hcut, if_neg hcut]

/-- Every chunk the `_chunk_text` loop emits is stripped: no leading and
no trailing whitespace. -/
theorem chunkTextAux_chunks_stripped (text : List Char) (size overlap : Int) :
    ∀ fuel start l, chunkTextAux text size overlap fuel start = some l →
      ∀ c ∈ l, c.dropWhile isWs = c ∧ c.reverse.dropWhile isWs = c.reverse := by
  intro fuel
  induction fuel with
  | zero =>
    intro start l h
    exact absurd h (by simp [chunkTextAux])
  | succ n ih =>
    intro start l h
    rw [chunkTextAux] at h
    split at h
    · split at h
      · next rest hrec =>
        rw [Option.some.injEq] at h
        rw [← h]
        intro c hc
        rcases List.mem_cons.mp hc with hceq | hcmem
        · rw [hceq]
          exact ⟨pyStripL_leading _, pyStripL_trailing _⟩
        · exact ih _ rest hrec c hcmem
      · exact absurd h (by simp)
    · rw [Option.some.injEq] at h
      rw [← h]
      intro c hc
      exact absurd hc (by simp)
/-- **C6 (amended)**: for every window ending before the end of the text,
the emitted chunk is cut just after the last `'.'`/newline of the window
when that break point lies STRICTLY after the chunk's midpoint (the
source's `break_point > chunk_size * 0.5` test) and at the `chunk_size`
boundary otherwise — stated as equality with the spec-worded cut
`specCutStrict` — and every emitted chunk is stripped of leading and
trailing whitespace. -/
theorem c6_amended_cut_and_strip :
    (∀ text size start, 0 < size → start + size < (text.length : Int) →
      pyStripL (chunkOnce text size start).1 = specCutStrict text size start) ∧
    (∀ fuel text size overlap start l, chunkTextAux text size overlap fuel start = some l →
      ∀ c ∈ l, c.dropWhile isWs = c ∧ c.reverse.dropWhile isWs = c.reverse) :=
  ⟨fun text size start h1 h2 => chunkOnce_matches_specCutStrict text size start h1 h2,
   fun fuel text size overlap start l h => chunkTextAux_chunks_stripped text size overlap fuel start l h⟩

/-- Witness for `c6_amended_cut_and_strip`: the cut characterization at a
concrete window, and the strip property for a concrete chunking run. -/
theorem c6_witness :
    (pyStripL (chunkOnce ("ab.cdefgh".toList) 8 0).1 = specCutStrict ("ab.cdefgh".toList) 8 0) ∧
    (['a'].dropWhile isWs = ['a'] ∧ ['a'].reverse.dropWhile isWs = ['a'].reverse) :=
  ⟨c6_amended_cut_and_strip.1 ("ab.cdefgh".toList) 8 0 (by decide) (by decide),
   c6_amended_cut_and_strip.2 3 ("ab".toList) 1 0 0 [['a'], ['b']] (by decide) ['a'] (by decide)⟩

/-- **C6 counterexample**: in the first window of `"ab.cdef"` with
`chunk_size = 4` the last `'.'` sits exactly AT the midpoint (index 2,
`2*2 = 4`): the claim's at-or-after rule would cut to `"ab."`, but the
source's strict test does not fire and the emitted chunk is `"ab.c"`. -/
theorem c6_counterexample :
    chunkText 10 "ab.cdef" 4 1 = some ["ab.c", "cdef", "f"] ∧
    pyStripL (chunkOnce ("ab.cdef".toList) 4 0).1 = "ab.c".toList ∧
    specCutAtOrAfter ("ab.cdef".toList) 4 0 = "ab.".toList ∧
    "ab.c".toList ≠ "ab.".toList :=
  ⟨by decide, by decide, by decide, by decide⟩

/-! ## Claim theorems -/

/-- The `_chunk_text` loop on `("ab", chunk_size=1, chunk_overlap=1)`
revisits `start = 0` forever: the window is `"a"`, no break point exists,
and the next start is `end - overlap = 1 - 1 = 0`. -/
theorem chunkAux_ab_stuck : ∀ fuel : Nat, chunkTextAux ("ab".toList) 1 1 fuel 0 = none := by
  intro fuel
  induction fuel with
  | zero => rfl
  | succ n ih =>
    rw [chunkTextAux]
    rw [if_pos (by decide : (0 : Int) < (("ab".toList).length : Int))]
    rw [show (chunkOnce ("ab".toList) 1 0).2 - 1 = 0 from by decide]
    rw [ih]

/-- The `_chunk_text` loop on `("abcdef.hijkl", chunk_size=10,
chunk_overlap=9)` cycles through the starts `0 → -2 → -1 → 0 → …`: from
`0` the sentence break at index 6 pulls `end` back to 7 and the next start
is `7 - 9 = -2`; the negative starts produce empty Python slices with no
break point and advance by `chunk_size - overlap = 1` back to `0`. -/
theorem chunkAux_cycle_stuck : ∀ fuel : Nat,
    chunkTextAux ("abcdef.hijkl".toList) 10 9 fuel 0 = none ∧
    chunkTextAux ("abcdef.hijkl".toList) 10 9 fuel (-2) = none ∧
    chunkTextAux ("abcdef.hijkl".toList) 10 9 fuel (-1) = none := by
  intro fuel
  induction fuel with
  | zero => exact ⟨rfl, rfl, rfl⟩
  | succ n ih =>
    obtain ⟨ih0, ihm2, ihm1⟩ := ih
    refine ⟨?_, ?_, ?_⟩
    · rw [chunkTextAux]
      rw [if_pos (by decide : (0 : Int) < (("abcdef.hijkl".toList).length : Int))]
      rw [show (chunkOnce ("abcdef.hijkl".toList) 10 0).2 - 9 = -2 from by decide]
      rw [ihm2]
    · rw [chunkTextAux]
      rw [if_pos (by decide : (-2 : Int) < (("abcdef.hijkl".toList).length : Int))]
      rw [show (chunkOnce ("abcdef.hijkl".toList) 10 (-2)).2 - 9 = -1 from by decide]
      rw [ihm1]
    · rw [chunkTextAux]
      rw [if_pos (by decide : (-1 : Int) < (("abcdef.hijkl".toList).length : Int))]
      rw [show (chunkOnce ("abcdef.hijkl".toList) 10 (-1)).2 - 9 = 0 from by decide]
      rw [ih0]

/-- **C4 (code bug)**: on the non-empty text `"ab"` with
`chunk_overlap = chunk_size = 1`, `_chunk_text` raises no error — the
source contains no precondition check at all — and instead never
terminates: no amount of fuel completes the loop. -/
theorem c4_overlap_ge_size_never_fails_fast :
    ∀ fuel : Nat, chunkText fuel "ab" 1 1 = none := by
  intro fuel
  unfold chunkText
  rw [chunkAux_ab_stuck fuel]
  rfl

/-- **C5 (code bug)**: even under the documented precondition
`0 ≤ chunk_overlap < chunk_size` (here `overlap = 9 < 10 = chunk_size`),
`_chunk_text` does not guarantee forward progress: on
`"abcdef.hijkl"` the start offset moves backwards (`0 → -2`) after a
sentence-boundary cut and then cycles forever, so the call never
terminates. -/
theorem c5_chunker_diverges_within_precondition :
    ∀ fuel : Nat, chunkText fuel "abcdef.hijkl" 10 9 = none := by
  intro fuel
  unfold chunkText
  rw [(chunkAux_cycle_stuck fuel).1]
  rfl

/-- **C3 counterexample**: with `k = 1`, a 3-document store, and ONLY
`filter_metadata` supplied, the source requests `min(k, n) = 1` candidate
— not the `min(3k, n) = 3` the claim asserts for "any filter" — and
consequently returns no result even though a matching document exists
among the top-3 candidates. -/
theorem c3_counterexample :
    searchK 1 3 none none none = 1 ∧
    searchKSpec 1 3 none none none (some [("tag", Value.str "x")]) = 3 ∧
    (1 : Nat) ≠ 3 ∧
    retrieve stThree sfThree 1 none none (some [("tag", Value.str "x")]) none = [] ∧
    retrieveLoop stThree.documents stThree.metadata none none none
        (some [("tag", Value.str "x")]) 1 0 (sfThree 3) =
      [("c", [("tag", Value.str "x")], 3)] :=
  ⟨by decide, by decide, by decide, by decide, by decide⟩

/-- **C3 (amended)**: `retrieve` requests `min(3k, n)` candidates exactly
when one of `dataset_name`, `lesson_id`, `person_id` is truthy, and
`min(k, n)` otherwise — `filter_metadata` alone does not trigger the 3k
expansion — and the request never exceeds the document count `n`. -/
theorem c3_amended_search_k (k n : Nat) (dn li pi : Option String) :
    ((truthyS dn || truthyS li || truthyS pi) = true → searchK k n dn li pi = min (k * 3) n) ∧
    ((truthyS dn || truthyS li || truthyS pi) = false → searchK k n dn li pi = min k n) ∧
    searchK k n dn li pi ≤ n := by
  unfold searchK
  refine ⟨fun h => by rw [if_pos h], fun h => by rw [if_neg (by simp [h])], min_le_right _ _⟩

/-- Witness for `c3_amended_search_k` at `k = 2`, `n = 10`,
`dataset_name = "d"`. -/
theorem c3_amended_search_k_witness :
    (truthyS (some "d") || truthyS none || truthyS none) = true ∧
    searchK 2 10 (some "d") none none = min (2 * 3) 10 :=
  ⟨by decide, (c3_amended_search_k 2 10 (some "d") none none).1 (by decide)⟩

/-- **C7 counterexample**: a 21-row series whose late-period mean exceeds
the early-period mean by exactly 0.5°C. The claim requires the phrasing
"remained relatively stable" here (0.5 does not exceed 0.5), but the
source's `abs(temp_change) < 0.5` test fails and it phrases the trend as
"increased". -/
theorem c7_counterexample :
    trendChange temps21 = 1/2 ∧
    ¬(|trendChange temps21| > 1/2) ∧
    trendPhrase (trendChange temps21) = "increased" := by
  have htake : temps21.take (temps21.length / 3) = List.replicate 7 (1 : ℚ) := rfl
  have hdrop : temps21.drop (temps21.length - temps21.length / 3) =
      List.replicate 7 ((3 : ℚ)/2) := rfl
  have hchange : trendChange temps21 = 1/2 := by
    simp only [trendChange, htake, hdrop]
    simp [listMean, List.sum_replicate]
    norm_num
  have habs : |(1/2 : ℚ)| = 1/2 := abs_of_pos (by norm_num)
  refine ⟨hchange, ?_, ?_⟩
  · rw [hchange, habs]
    norm_num
  · rw [hchange, trendPhrase]
    rw [if_neg (by rw [habs]; norm_num), if_pos (by norm_num)]

/-- **C7 (amended)**: the trend is phrased "remained relatively stable"
exactly when the absolute change is strictly below 0.5°C, and
"increased"/"decreased" (by the sign of the change) exactly when it is at
least 0.5°C — in particular an absolute difference of exactly 0.5°C is
phrased as increased/decreased, not stable. -/
theorem c7_amended_threshold (c : ℚ) :
    (trendPhrase c = "remained relatively stable" ↔ |c| < 1/2) ∧
    (1/2 ≤ |c| → trendPhrase c = if 0 < c then "increased" else "decreased") := by
  unfold trendPhrase
  constructor
  · constructor
    · intro h
      by_contra hc
      rw [if_neg hc] at h
      rcases lt_or_le 0 c with hpos | hneg
      · rw [if_pos hpos] at h
        exact absurd h (by decide)
      · rw [if_neg (not_lt.mpr hneg)] at h
        exact absurd h (by decide)
    · intro h
      rw [if_pos h]
  · intro h
    rw [if_neg (not_lt.mpr h)]

/-- Witness for `c7_amended_threshold` at a change of exactly 0.5°C. -/
theorem c7_amended_threshold_witness :
    (1/2 : ℚ) ≤ |(1/2 : ℚ)| ∧ trendPhrase (1/2) = "increased" := by
  have habs : |(1/2 : ℚ)| = 1/2 := abs_of_pos (by norm_num)
  refine ⟨by rw [habs], ?_⟩
  have h := (c7_amended_threshold (1/2)).2 (by rw [habs])
  rw [if_pos (by norm_num : (0 : ℚ) < 1/2)] at h
  exact h

/-- **C8 (code bug)**: `load_index` accepts mutually inconsistent
artifacts without any failure: an index artifact holding one vector of
dimension 384 together with a data artifact holding zero documents and
dimension 2 loads into a state whose document count disagrees with the
index size and whose dimensions disagree — no length or dimension check
exists in the source. -/
theorem c8_load_index_accepts_inconsistent_artifacts :
    loadIndex ⟨384, ["v1"]⟩ ⟨[], [], 2, "m"⟩ =
      { documents := [], metadata := [], index := ["v1"], indexDim := 384, dimension := 2,
        embeddingModelName := "m" } ∧
    (loadIndex ⟨384, ["v1"]⟩ ⟨[], [], 2, "m"⟩).documents.length ≠
      (loadIndex ⟨384, ["v1"]⟩ ⟨[], [], 2, "m"⟩).index.length ∧
    (loadIndex ⟨384, ["v1"]⟩ ⟨[], [], 2, "m"⟩).dimension ≠
      (loadIndex ⟨384, ["v1"]⟩ ⟨[], [], 2, "m"⟩).indexDim :=
  ⟨rfl, by decide, by decide⟩

/-- **C9**: feeding the France and Germany records (no text field) through
the CSV ingestion loop synthesizes the expected non-empty texts — each
mentioning its country and its temperature formatted to two decimals with
a `°C` suffix — and stores both as documents whose metadata carries
`lesson_id` `"climate_france"` / `"climate_germany"`. -/
theorem c9_country_records_scenario :
    franceGermanyState.documents =
      ["Climate data for France: Average temperature: 12.50°C.",
       "Climate data for Germany: Average temperature: 9.00°C."] ∧
    franceGermanyState.metadata.map (fun m => metaGet m "lesson_id") =
      [some (Value.str "climate_france"), some (Value.str "climate_germany")] ∧
    franceGermanyState.documents.all (fun d => !(d == "")) = true ∧
    (∃ a b, franceGermanyState.documents.getD 0 "" = a ++ "France" ++ b) ∧
    (∃ a b, franceGermanyState.documents.getD 0 "" = a ++ "12.50°C" ++ b) ∧
    (∃ a b, franceGermanyState.documents.getD 1 "" = a ++ "Germany" ++ b) ∧
    (∃ a b, franceGermanyState.documents.getD 1 "" = a ++ "9.00°C" ++ b) :=
  ⟨by decide, by decide, by decide,
   ⟨"Climate data for ", ": Average temperature: 12.50°C.", by decide⟩,
   ⟨"Climate data for France: Average temperature: ", ".", by decide⟩,
   ⟨"Climate data for ", ": Average temperature: 9.00°C.", by decide⟩,
   ⟨"Climate data for Germany: Average temperature: ", ".", by decide⟩⟩

/-- **C10 counterexample**: ingesting a record whose (non-empty,
non-blank) text contains a ten-space run, with `chunk_size = 4` and
`chunk_overlap = 1`, stores three empty-string documents: whitespace-only
chunk windows are stripped to `""` and indexed, so not every stored
document is non-empty. -/
theorem c10_counterexample :
    (applyOp initialState (Op.loadDataset false "text" none none 4 1 none 10 [wsRecord])).documents =
      ["ab.", "", "", "", "z"] ∧
    "" ∈ (applyOp initialState
      (Op.loadDataset false "text" none none 4 1 none 10 [wsRecord])).documents :=
  ⟨by decide, by decide⟩

/-- Every element the candidate loop keeps passed the filter test. -/
theorem retrieveLoop_mem_filterPass (docs : List String) (metas : List Rec)
    (dn li pi : Option String) (fm : Option (List (String × Value))) (k : Nat) :
    ∀ cands count r, r ∈ retrieveLoop docs metas dn li pi fm k count cands →
      filterPass r.2.1 dn li pi fm = true := by
  intro cands
  induction cands with
  | nil => intro count r h; simp [retrieveLoop] at h
  | cons c rest ih =>
    intro count r h
    obtain ⟨idx, dist⟩ := c
    rw [retrieveLoop] at h
    split at h
    · next hp =>
      rcases List.mem_cons.mp h with heq | hmem
      · rw [heq]; exact hp
      · split at hmem
        · simp at hmem
        · exact ih _ r hmem
    · exact ih _ r h

/-- Semantic reading of a passed filter test: each active (truthy) string
filter is matched exactly, and every `filter_metadata` pair is matched
exactly. -/
theorem filterPass_elim (m : Rec) (dn li pi : Option String)
    (fm : Option (List (String × Value))) (h : filterPass m dn li pi fm = true) :
    (∀ s, dn = some s → s ≠ "" → metaGet m "dataset_name" = some (Value.str s)) ∧
    (∀ s, li = some s → s ≠ "" → metaGet m "lesson_id" = some (Value.str s)) ∧
    (∀ s, pi = some s → s ≠ "" → metaGet m "person_id" = some (Value.str s)) ∧
    (∀ l, fm = some l → ∀ kv ∈ l, metaGet m kv.1 = some kv.2) := by
  unfold filterPass at h
  rw [Bool.and_eq_true, Bool.and_eq_true, Bool.and_eq_true] at h
  obtain ⟨⟨⟨h1, h2⟩, h3⟩, h4⟩ := h
  refine ⟨?_, ?_, ?_, ?_⟩
  · intro s hs hne
    rw [hs] at h1
    simp only [strFilterPass] at h1
    rw [if_neg hne] at h1
    exact of_decide_eq_true h1
  · intro s hs hne
    rw [hs] at h2
    simp only [strFilterPass] at h2
    rw [if_neg hne] at h2
    exact of_decide_eq_true h2
  · intro s hs hne
    rw [hs] at h3
    simp only [strFilterPass] at h3
    rw [if_neg hne] at h3
    exact of_decide_eq_true h3
  · intro l hl kv hkv
    rw [hl] at h4
    simp only [fmPass] at h4
    rw [List.all_eq_true] at h4
    exact of_decide_eq_true (h4 kv hkv)

/-- The candidate loop, entered with `count` results already collected
(`count < k`), collects at most `k - count` more: the break right after an
append caps the total at `k`. -/
theorem retrieveLoop_length (docs : List String) (metas : List Rec) (dn li pi : Option String)
    (fm : Option (List (String × Value))) (k : Nat) :
    ∀ cands count, count < k →
      (retrieveLoop docs metas dn li pi fm k count cands).length + count ≤ k := by
  intro cands
  induction cands with
  | nil =>
    intro count hc
    simp only [retrieveLoop, List.length_nil]
    omega
  | cons c rest ih =>
    intro count hc
    obtain ⟨idx, dist⟩ := c
    rw [retrieveLoop]
    split
    · split
      · next hk =>
        simp only [List.length_cons, List.length_nil]
        omega
      · next hk =>
        have hrec := ih (count + 1) (by omega)
        simp only [List.length_cons]
        omega
    · exact ih count hc

/-- The distances of the kept results form a sublist of the candidate
distances: filtering only skips candidates, never reorders them. -/
theorem retrieveLoop_dists_sublist (docs : List String) (metas : List Rec)
    (dn li pi : Option String) (fm : Option (List (String × Value))) (k : Nat) :
    ∀ cands count,
      ((retrieveLoop docs metas dn li pi fm k count cands).map (fun r => r.2.2)).Sublist
        (cands.map Prod.snd) := by
  intro cands
  induction cands with
  | nil => intro count; simp [retrieveLoop]
  | cons c rest ih =>
    intro count
    obtain ⟨idx, dist⟩ := c
    rw [retrieveLoop]
    split
    · split
      · simp only [List.map_cons, List.map_nil]
        exact (List.nil_sublist _).cons₂ dist
      · simp only [List.map_cons]
        exact (ih (count + 1)).cons₂ dist
    · exact (ih count).cons dist

/-- **C2**: for every `retrieve` call — assuming only the FAISS search
contract (at most the requested number of candidates, returned in
non-decreasing distance order) — every returned tuple's metadata satisfies
all active filter predicates exactly (`dataset_name`, `lesson_id`,
`person_id`, and every `filter_metadata` pair) with no false positives,
the result has at most `k` elements, and result distances are
non-decreasing: filtering skips candidates but never reorders them. -/
theorem c2_retrieve_filter_correctness (st : RAGState) (searchFn : Nat → List (Nat × ℚ))
    (k : Nat) (lessonId personId : Option String) (fm : Option (List (String × Value)))
    (datasetName : Option String)
    (hlen : ∀ m, (searchFn m).length ≤ m)
    (hsorted : ∀ m, ((searchFn m).map Prod.snd).Pairwise (· ≤ ·)) :
    (∀ r ∈ retrieve st searchFn k lessonId personId fm datasetName,
      (∀ s, datasetName = some s → s ≠ "" → metaGet r.2.1 "dataset_name" = some (Value.str s)) ∧
      (∀ s, lessonId = some s → s ≠ "" → metaGet r.2.1 "lesson_id" = some (Value.str s)) ∧
      (∀ s, personId = some s → s ≠ "" → metaGet r.2.1 "person_id" = some (Value.str s)) ∧
      (∀ l, fm = some l → ∀ kv ∈ l, metaGet r.2.1 kv.1 = some kv.2)) ∧
    (retrieve st searchFn k lessonId personId fm datasetName).length ≤ k ∧
    ((retrieve st searchFn k lessonId personId fm datasetName).map (fun r => r.2.2)).Pairwise
      (· ≤ ·) := by
  unfold retrieve
  split
  · simp
  · refine ⟨?_, ?_, ?_⟩
    · intro r hr
      exact filterPass_elim _ _ _ _ _ (retrieveLoop_mem_filterPass _ _ _ _ _ _ _ _ _ r hr)
    · rcases Nat.eq_zero_or_pos k with hk0 | hkpos
      · subst hk0
        have hsk : searchK 0 st.documents.length datasetName lessonId personId = 0 := by
          simp [searchK]
        rw [hsk]
        have hnil : searchFn 0 = [] :=
          List.eq_nil_of_length_eq_zero (Nat.le_zero.mp (hlen 0))
        rw [hnil]
        simp [retrieveLoop]
      · have hlen2 := retrieveLoop_length st.documents st.metadata datasetName lessonId
          personId fm k (searchFn (searchK k st.documents.length datasetName lessonId personId))
          0 hkpos
        omega
    · exact List.Pairwise.sublist
        (retrieveLoop_dists_sublist _ _ _ _ _ _ _ _ 0) (hsorted _)

/-- The `stThree` search stand-in returns at most the requested count. -/
theorem sfThree_len : ∀ m, (sfThree m).length ≤ m := by
  intro m
  simp only [sfThree, List.length_take]
  exact min_le_left _ _

/-- The `stThree` search stand-in returns distances in non-decreasing
order. -/
theorem sfThree_sorted : ∀ m, ((sfThree m).map Prod.snd).Pairwise (· ≤ ·) := by
  intro m
  refine List.Pairwise.sublist ((List.take_sublist m _).map Prod.snd) ?_
  decide

/-- Witness for `c2_retrieve_filter_correctness` on the concrete
three-document store. -/
theorem c2_retrieve_filter_correctness_witness :
    (retrieve stThree sfThree 2 none none none (some "d")).length ≤ 2 ∧
    ((retrieve stThree sfThree 2 none none none (some "d")).map (fun r => r.2.2)).Pairwise
      (· ≤ ·) :=
  ⟨(c2_retrieve_filter_correctness stThree sfThree 2 none none none (some "d")
      sfThree_len sfThree_sorted).2.1,
   (c2_retrieve_filter_correctness stThree sfThree 2 none none none (some "d")
      sfThree_len sfThree_sorted).2.2⟩

/-- The central parallel-array invariant: the index stores exactly the
documents (position by position), and documents and metadata have equal
length. -/
def stInv (st : RAGState) : Prop :=
  st.index = st.documents ∧ st.documents.length = st.metadata.length

/-- A successful `add_documents` preserves the parallel-array invariant:
the `ValueError` branch fires on any length mismatch before mutation, and
the success branch appends index vectors, documents and metadata in
lock-step. -/
theorem addDocuments_ok_inv (st : RAGState) (docs : List String) (metadata : Option (List Rec))
    (st' : RAGState) (hst : stInv st) (h : addDocuments st docs metadata = .ok st') :
    stInv st' := by
  simp only [addDocuments] at h
  split at h
  · exact absurd h (by simp)
  · next hlen =>
    rw [Except.ok.injEq] at h
    rw [← h]
    obtain ⟨h1, h2⟩ := hst
    constructor
    · simp only [h1]
    · simp only [List.length_append]
      omega

/-- Each ingestion call (including its error paths, which leave the state
unchanged) preserves the parallel-array invariant. -/
theorem applyOp_inv (st : RAGState) (op : Op) (h : stInv st) : stInv (applyOp st op) := by
  cases op with
  | addDocs docs metadata =>
    simp only [applyOp]
    split
    · next st' hadd => exact addDocuments_ok_inv _ _ _ _ h hadd
    · exact h
  | loadDataset isCsv tc lic pic size overlap dn fuel records =>
    simp only [applyOp]
    split
    · exact h
    · next ds ms hpr =>
      split
      · next st' hadd => exact addDocuments_ok_inv _ _ _ _ h hadd
      · exact h

/-- The invariant is preserved by any sequence of ingestion calls. -/
theorem runOps_inv (ops : List Op) : ∀ st : RAGState, stInv st → stInv (runOps st ops) := by
  induction ops with
  | nil => intro st h; exact h
  | cons op rest ih =>
    intro st h
    exact ih (applyOp st op) (applyOp_inv st op h)

/-- **C1**: after any sequence of ingestion calls
(`load_from_dataset` / `add_documents`) on a freshly constructed system,
`len(documents) == len(metadata) == index.ntotal`, and the index stores,
position by position, exactly the embeddings of the documents array — so
position `i` of all three structures refers to the same logical entry. -/
theorem c1_parallel_arrays_invariant (ops : List Op) :
    (runOps initialState ops).documents.length = (runOps initialState ops).metadata.length ∧
    (runOps initialState ops).metadata.length = (runOps initialState ops).index.length ∧
    (runOps initialState ops).index = (runOps initialState ops).documents := by
  obtain ⟨h1, h2⟩ := runOps_inv ops initialState ⟨rfl, rfl⟩
  exact ⟨h2, by rw [h1]; exact h2.symm, h1⟩

/-- **C10 (amended)**: a record whose normalized text trips the skip test
of line 196 (empty, whitespace-only, or the literal `"nan"`) contributes
no documents and no metadata: it is skipped entirely. (Stored documents
may nevertheless be empty strings, since whitespace-only chunk windows
strip to `""` — see the counterexample.) -/
theorem c10_amended_empty_records_skipped (isCsv : Bool) (tc : String)
    (lic pic : Option String) (size overlap : Int) (dn : Option String) (fuel : Nat)
    (r : Rec) (rest : List Rec) (h : skipText (recordText isCsv tc r) = true) :
    processRecords isCsv tc lic pic size overlap dn fuel (r :: rest) =
      processRecords isCsv tc lic pic size overlap dn fuel rest := by
  rw [processRecords, if_pos h]

/-- Witness for `c10_amended_empty_records_skipped` on a whitespace-only
text record. -/
theorem c10_amended_empty_records_skipped_witness :
    skipText (recordText false "text" [("text", Value.str "   ")]) = true ∧
    processRecords false "text" none none 4 1 none 3 [[("text", Value.str "   ")]] =
      processRecords false "text" none none 4 1 none 3 [] :=
  ⟨by decide,
   c10_amended_empty_records_skipped false "text" none none 4 1 none 3
     [("text", Value.str "   ")] [] (by decide)⟩

end RAG
